import Mathlib

/-!
Verification development for the PolyglotRAG ingestion and retrieval pipeline.

Shallow embedding of the core Rust source files:
  * `src/infrastructure/external_services/semantic_chunking.rs` (`RTSplitter`)
  * `src/domain/value_objects/processing_status.rs` (`ProcessingStatus`)
  * `src/domain/entities/processing_job.rs` (`ProcessingJob`)
  * `src/application/use_cases/queue_processing_job.rs`
  * `src/application/use_cases/cancel_job.rs`
  * `src/infrastructure/messaging/background_processor.rs`
  * `src/infrastructure/messaging/mpsc_job_queue.rs`
  * `src/infrastructure/external_services/inference_client.rs`
  * `src/infrastructure/database/repositories/postgres_embedding_repository.rs`

Rust `String`/`&str` values are modelled as `List Char`; `str::len()` (a byte
count) is modelled by summing UTF-8 sizes (`byteLen`), while character-indexed
operations (`chars()`) use list positions, exactly as the source distinguishes
the two.  `f32`/`f64` arithmetic is idealised as exact arithmetic: rationals
where only ordering and equality of decimal literals matter (job progress,
back-off durations), real numbers where square roots occur (cosine similarity).
`Uuid` values are modelled as naturals, `DateTime<Utc>` instants as naturals
supplied at each call (`Utc::now()` becomes an explicit parameter).
-/

namespace PolyglotRAG

/-! ## Text splitter: `semantic_chunking.rs` -/

/-- Byte length of a string, as Rust `str::len()` computes it (UTF-8 bytes). -/
def byteLen (s : List Char) : Nat :=
  (s.map Char.utf8Size).sum

/-- Does `sep` occur as a prefix of `s`?  (Mirrors the pattern matching done by
Rust `str::split` at one position.) -/
def sepMatches : List Char → List Char → Bool
  | [], _ => true
  | _ :: _, [] => false
  | a :: as_, b :: bs => a = b && sepMatches as_ bs

/-- First occurrence of `sep` in `text`: the part before it and the part after
it.  `none` when `sep` does not occur. -/
def findSplit (sep : List Char) : List Char → Option (List Char × List Char)
  | [] => none
  | c :: cs =>
    if sepMatches sep (c :: cs) then some ([], (c :: cs).drop sep.length)
    else
      match findSplit sep cs with
      | some (pre, post) => some (c :: pre, post)
      | none => none

/-- Rust `text.split(separator).collect()` for a non-empty separator, written
with explicit fuel (each occurrence consumes at least one character, so
`text.length + 1` steps always suffice). -/
def splitOnAux (sep : List Char) : Nat → List Char → List (List Char)
  | 0, text => [text]
  | fuel + 1, text =>
    match findSplit sep text with
    | none => [text]
    | some (pre, post) => pre :: splitOnAux sep fuel post

/-- Rust `text.split(separator).collect::<Vec<&str>>()`. -/
def split_on (sep text : List Char) : List (List Char) :=
  splitOnAux sep (text.length + 1) text

/-- One iteration of the `while start < chars.len()` loop of
`RTSplitter::split_by_length`; `fuel` bounds the iteration count (for
`max_chunk_size ≥ 1` the loop runs at most `chars.len()` times; for
`max_chunk_size = 0` the Rust loop diverges, which the fuel truncates). -/
def splitByLengthAux (chars : List Char) (max_chunk_size : Nat) :
    Nat → Nat → List (List Char)
  | 0, _ => []
  | fuel + 1, start =>
    if start < chars.length then
      let stop := min (start + max_chunk_size) chars.length
      let chunk := (chars.drop start).take (stop - start)
      if stop = chars.length then [chunk]
      else chunk :: splitByLengthAux chars max_chunk_size fuel stop
    else []

/-- Model of `RTSplitter::split_by_length`: fixed-width slicing by character count. -/
def split_by_length (text : List Char) (max_chunk_size : Nat) : List (List Char) :=
  splitByLengthAux text max_chunk_size (text.length + 1) 0

/-- The `for part in parts` accumulation loop inside
`RTSplitter::recursive_split`, with the recursive call at the next separator
level passed in as `next`.  State is `(chunks, current_chunk)`. -/
def accumulateParts (next : List Char → List (List Char)) (sep : List Char)
    (max_chunk_size : Nat) (parts : List (List Char)) : List (List Char) :=
  let step := fun (st : List (List Char) × List Char) (part : List Char) =>
    let chunks := st.1
    let current := st.2
    let part_with_sep := if current = [] then part else current ++ sep ++ part
    if byteLen part_with_sep ≤ max_chunk_size then (chunks, part_with_sep)
    else
      let flushed : List (List Char) × List Char :=
        if current = [] then (chunks, part) else (chunks ++ [current], part)
      if max_chunk_size < byteLen flushed.2 then
        (flushed.1 ++ next flushed.2, [])
      else flushed
  let res := parts.foldl step ([], [])
  if res.2 = [] then res.1 else res.1 ++ [res.2]

/-- Model of `RTSplitter::recursive_split`, with the remaining separator list standing
for `separator_index` (the source indexes into `self.separators`; passing the
suffix of that list is the same recursion). -/
def recursive_split (max_chunk_size : Nat) :
    List (List Char) → List Char → List (List Char)
  | seps, text =>
    if byteLen text ≤ max_chunk_size then [text]
    else
      match seps with
      | [] => split_by_length text max_chunk_size
      | sep :: rest =>
        if sep = [] then split_by_length text max_chunk_size
        else
          let parts := split_on sep text
          if parts.length = 1 then recursive_split max_chunk_size rest text
          else accumulateParts (recursive_split max_chunk_size rest) sep max_chunk_size parts

/-- The separator hierarchy of `RTSplitter::default()`. -/
def default_separators : List (List Char) :=
  [['\n', '\n'], ['\n'], [' '], []]

/-- Model of `RTSplitter::split_text` (the `RecursiveTextSplitter` impl). -/
def split_text (text : List Char) (max_chunk_size : Nat) : List (List Char) :=
  if byteLen text ≤ max_chunk_size then [text]
  else recursive_split max_chunk_size default_separators text

/-! ## Chunk creation: `BackgroundProcessor::create_chunks_from_text` -/

/-- Rust `char::is_whitespace`: the Unicode `White_Space` property. -/
def isRustWhitespace (c : Char) : Bool :=
  c.toNat ∈ ([0x09, 0x0A, 0x0B, 0x0C, 0x0D, 0x20, 0x85, 0xA0, 0x1680,
    0x2000, 0x2001, 0x2002, 0x2003, 0x2004, 0x2005, 0x2006, 0x2007,
    0x2008, 0x2009, 0x200A, 0x2028, 0x2029, 0x202F, 0x205F, 0x3000] : List Nat)

/-- Rust `str::trim()`: strip leading and trailing whitespace. -/
def rust_trim (s : List Char) : List Char :=
  ((s.dropWhile isRustWhitespace).reverse.dropWhile isRustWhitespace).reverse

/-- Rust `str::split_whitespace().count()`: number of maximal non-whitespace
runs. -/
def splitWhitespaceCount (s : List Char) : Nat :=
  (s.foldl
    (fun st c =>
      if isRustWhitespace c then (st.1, false)
      else if st.2 then st else (st.1 + 1, true))
    ((0, false) : Nat × Bool)).1

/-- Model of `ContentChunk` (`src/domain/entities/content_chunk.rs`), restricted to the
fields the worker sets in `create_chunks_from_text` (`page_number` and
`section_path` are always `None` there and are omitted). -/
structure ContentChunk where
  file_id : Nat
  chunk_text : List Char
  index : Nat
  word_count : Option Nat
deriving DecidableEq, Repr

/-- Model of `BackgroundProcessor::create_chunks_from_text`: split at 2000 characters,
drop chunks whose trimmed text is shorter than 10 bytes, keep the enumeration
index of the split output as the chunk `index`. -/
def create_chunks_from_text (file_id : Nat) (text : List Char) :
    List ContentChunk :=
  if rust_trim text = [] then []
  else
    let max_chunk_size := 2000
    let chunk_texts := split_text text max_chunk_size
    chunk_texts.enum.filterMap fun p =>
      if byteLen (rust_trim p.2) < 10 then none
      else
        some { file_id := file_id, chunk_text := p.2, index := p.1,
               word_count := some (splitWhitespaceCount p.2) }

/-- Input exhibiting an index gap: a short first paragraph followed by one
paragraph of 667 three-byte characters (2001 bytes, so the whole text exceeds
the 2000-byte chunk bound and splits at the paragraph separator). -/
def c4GapText : List Char :=
  "hi\n\n".toList ++ List.replicate 667 (Char.ofNat 0x4E2D)


/-! ## Job domain: `processing_status.rs` and `processing_job.rs`

`f32` progress is idealised as an exact rational; `Utc::now()` is an explicit
`Nat` parameter; `Uuid` is a `Nat`.  Each Rust `&mut self` method returning
`Result<(), String>` becomes a pure function returning
`Except String ProcessingJob`.
-/

/-- Model of `ProcessingStatus` (`src/domain/value_objects/processing_status.rs`). -/
inductive PStatus where
  | pending
  | processing
  | completed
  | failed (reason : String)
deriving DecidableEq, Repr

/-- Model of `ProcessingStatus::is_pending`. -/
def PStatus.isPending : PStatus → Bool
  | .pending => true
  | _ => false

/-- Model of `ProcessingStatus::is_processing`. -/
def PStatus.isProcessing : PStatus → Bool
  | .processing => true
  | _ => false

/-- Model of `ProcessingStatus::is_terminal`. -/
def PStatus.isTerminal : PStatus → Bool
  | .completed => true
  | .failed _ => true
  | _ => false

/-- Rust `{:?}` debug rendering of `ProcessingStatus`, used in error texts. -/
def PStatus.debugText : PStatus → String
  | .pending => "Pending"
  | .processing => "Processing"
  | .completed => "Completed"
  | .failed r => "Failed(" ++ r ++ ")"

/-- Model of `JobType` (`src/domain/entities/processing_job.rs`). -/
inductive JobType where
  | fileProcessing
  | urlExtraction (url : String)
  | youtubeExtraction (url : String)
deriving DecidableEq, Repr

/-- Model of `JobResult` (`src/domain/entities/processing_job.rs`). -/
structure JobResult where
  chunks_created : Int
  embeddings_created : Int
  processing_time_ms : Nat
  extracted_text_length : Nat
deriving DecidableEq, Repr

/-- Model of `ProcessingJob` (`src/domain/entities/processing_job.rs`). -/
structure ProcessingJob where
  id : Nat
  file_id : Nat
  job_type : JobType
  status : PStatus
  progress : ℚ
  created_at : Nat
  started_at : Option Nat
  completed_at : Option Nat
  error_message : Option String
  result_summary : Option JobResult
deriving DecidableEq, Repr

/-- Model of `ProcessingJob::new_file_processing` (with the fresh `Uuid::new_v4()` and
`Utc::now()` supplied as parameters `id` and `t`). -/
def new_file_processing (id file_id t : Nat) : ProcessingJob :=
  { id := id, file_id := file_id, job_type := .fileProcessing,
    status := .pending, progress := 0, created_at := t,
    started_at := none, completed_at := none,
    error_message := none, result_summary := none }

/-- Model of `ProcessingJob::new_url_extraction`. -/
def new_url_extraction (id file_id : Nat) (url : String) (t : Nat) :
    ProcessingJob :=
  { new_file_processing id file_id t with job_type := .urlExtraction url }

/-- Model of `ProcessingJob::new_youtube_extraction`. -/
def new_youtube_extraction (id file_id : Nat) (url : String) (t : Nat) :
    ProcessingJob :=
  { new_file_processing id file_id t with job_type := .youtubeExtraction url }

/-- Model of `ProcessingJob::start_processing`. -/
def start_processing (t : Nat) (j : ProcessingJob) :
    Except String ProcessingJob :=
  if ¬ j.status.isPending then
    .error ("Job is not in pending state: " ++ j.status.debugText)
  else
    .ok { j with status := .processing, started_at := some t,
                 progress := 1 / 10 }

/-- Model of `ProcessingJob::update_progress`. -/
def update_progress (progress : ℚ) (message : Option String)
    (j : ProcessingJob) : Except String ProcessingJob :=
  if ¬ j.status.isProcessing then
    .error "Job is not in processing state"
  else if progress < 0 ∨ progress > 1 then
    .error "Progress must be between 0.0 and 1.0"
  else
    .ok { j with progress := progress,
                 error_message :=
                   match message with
                   | some msg => some msg
                   | none => j.error_message }

/-- Model of `ProcessingJob::complete_processing`. -/
def complete_processing (result : JobResult) (t : Nat) (j : ProcessingJob) :
    Except String ProcessingJob :=
  if ¬ j.status.isProcessing then
    .error "Job is not in processing state"
  else
    .ok { j with status := .completed, progress := 1,
                 completed_at := some t, result_summary := some result,
                 error_message := none }

/-- Model of `ProcessingJob::fail_processing`. -/
def fail_processing (error : String) (t : Nat) (j : ProcessingJob) :
    Except String ProcessingJob :=
  if ¬ j.status.isProcessing then
    .error "Job is not in processing state"
  else
    .ok { j with status := .failed error, completed_at := some t,
                 error_message := some error }

/-- Model of `ProcessingJob::cancel`. -/
def cancelOp (t : Nat) (j : ProcessingJob) : Except String ProcessingJob :=
  if j.status.isTerminal then
    .error "Cannot cancel completed or failed job"
  else
    .ok { j with status := .failed "Cancelled by user",
                 completed_at := some t,
                 error_message := some "Job was cancelled" }

/-- Model of `ProcessingJob::is_active`. -/
def is_active (j : ProcessingJob) : Bool :=
  match j.status with
  | .pending => true
  | .processing => true
  | _ => false

/-- A job state reachable through construction and the entity's own
operations, with arbitrary instants, messages, progress values and results. -/
inductive JobReachable : ProcessingJob → Prop
  | newFile (id fid t : Nat) : JobReachable (new_file_processing id fid t)
  | newUrl (id fid : Nat) (url : String) (t : Nat) :
      JobReachable (new_url_extraction id fid url t)
  | newYoutube (id fid : Nat) (url : String) (t : Nat) :
      JobReachable (new_youtube_extraction id fid url t)
  | start (t : Nat) (j j' : ProcessingJob) : JobReachable j →
      start_processing t j = .ok j' → JobReachable j'
  | update (p : ℚ) (m : Option String) (j j' : ProcessingJob) :
      JobReachable j → update_progress p m j = .ok j' → JobReachable j'
  | complete (res : JobResult) (t : Nat) (j j' : ProcessingJob) :
      JobReachable j → complete_processing res t j = .ok j' → JobReachable j'
  | fail (e : String) (t : Nat) (j j' : ProcessingJob) :
      JobReachable j → fail_processing e t j = .ok j' → JobReachable j'
  | cancel (t : Nat) (j j' : ProcessingJob) :
      JobReachable j → cancelOp t j = .ok j' → JobReachable j'

/-! ## Cancel use case: `cancel_job.rs` -/

/-- Model of `CancelJobError` (`src/application/use_cases/cancel_job.rs`). -/
inductive CancelJobError where
  | jobNotFound (id : Nat)
  | repositoryError (msg : String)
  | queueError (msg : String)
  | jobNotCancellable (msg : String)
deriving DecidableEq, Repr

/-- Model of `CancelJobUseCase::execute`, as a function of what `find_by_id` returned
for the requested job id.  The result pairs the job record as it stands in the
repository after the call (the code only calls `update` on the success path;
`remove_job` touches the queue's pending map, not the repository) with the
response or error. -/
def cancel_execute (job_id : Nat) (found : Option ProcessingJob) (t : Nat) :
    Option ProcessingJob × Except CancelJobError String :=
  match found with
  | none => (none, .error (.jobNotFound job_id))
  | some j =>
    if ¬ is_active j then
      (some j, .error (.jobNotCancellable
        ("Job is in " ++ j.status.debugText ++
          " state and cannot be cancelled")))
    else
      match cancelOp t j with
      | .error e => (some j, .error (.jobNotCancellable e))
      | .ok j' => (some j', .ok "cancelled")

/-! ## Queue-job use case and the atomic store model:
`queue_processing_job.rs` -/

/-- Model of `QueueJobError` (`src/application/use_cases/queue_processing_job.rs`). -/
inductive QueueJobError where
  | fileNotFound (id : Nat)
  | repositoryError (msg : String)
  | queueError (msg : String)
  | validationError (msg : String)
deriving DecidableEq, Repr

/-- The durable store visible to the orchestrator use cases: the file ids the
`FileRepository` knows and the `ProcessingJob` records the `JobRepository`
holds. -/
structure Store where
  files : List Nat
  jobs : List ProcessingJob
deriving DecidableEq, Repr

/-- Construct the job `QueueProcessingJobUseCase::execute` builds for a
request `job_type`. -/
def mkJobForType (jt : JobType) (new_id file_id t : Nat) : ProcessingJob :=
  match jt with
  | .fileProcessing => new_file_processing new_id file_id t
  | .urlExtraction url => new_url_extraction new_id file_id url t
  | .youtubeExtraction url => new_youtube_extraction new_id file_id url t

/-- Model of `QueueProcessingJobUseCase::execute`: require the file to exist, require
no active job for it (`find_by_file_id` then `any(is_active)`), build the job,
save it.  Returns the updated store and the created job. -/
def queue_processing_job (s : Store) (file_id : Nat) (jt : JobType)
    (new_id t : Nat) : Except QueueJobError (Store × ProcessingJob) :=
  if file_id ∉ s.files then .error (.fileNotFound file_id)
  else if (s.jobs.filter fun j => j.file_id == file_id).any is_active then
    .error (.validationError "File already has an active processing job")
  else
    let job := mkJobForType jt new_id file_id t
    .ok ({ s with jobs := s.jobs ++ [job] }, job)

/-- One successful transition of a single job record, by any of the entity
operations a worker or the cancel use case applies. -/
def JobOpStep (j j' : ProcessingJob) : Prop :=
  (∃ t, start_processing t j = .ok j') ∨
  (∃ p m, update_progress p m j = .ok j') ∨
  (∃ res t, complete_processing res t j = .ok j') ∨
  (∃ e t, fail_processing e t j = .ok j') ∨
  (∃ t, cancelOp t j = .ok j')

/-- Atomic-step semantics of the orchestrator: `queue_processing_job` runs, or
a single job record is transitioned in place (worker transition or cancel
applied directly to the durable record).  No other operation creates jobs. -/
inductive StoreStep : Store → Store → Prop
  | queue (s s' : Store) (file_id : Nat) (jt : JobType) (new_id t : Nat)
      (job : ProcessingJob) :
      queue_processing_job s file_id jt new_id t = .ok (s', job) →
      StoreStep s s'
  | jobOp (s : Store) (i : Nat) (j' : ProcessingJob) (h : i < s.jobs.length) :
      JobOpStep (s.jobs.get ⟨i, h⟩) j' →
      StoreStep s { s with jobs := s.jobs.set i j' }

/-- Store states reachable from an empty job table. -/
inductive StoreReachable : Store → Prop
  | init (files : List Nat) : StoreReachable ⟨files, []⟩
  | step (s s' : Store) : StoreReachable s → StoreStep s s' →
      StoreReachable s'

/-! ## Concurrent system model: `background_processor.rs` +
`mpsc_job_queue.rs` + the use cases

The faithful interleaving semantics.  A worker receives the enqueued
`ProcessingJob` payload from the channel and drives *that in-memory copy*
(`BackgroundProcessor::process_job` never reloads the job by id); every
persistence write (`job_repository.update(&job)`) overwrites the durable
record having the same id with the worker's copy.  The cancel use case flips
the durable record; its `remove_job` call deletes only the queue's pending
map entry, never the channel entry a worker will receive
(`MpscJobQueue::remove_job`). -/

/-- Overwrite the store record with `j'`s id by `j'` — repository
`update(&job)` semantics. -/
def persistById (jobs : List ProcessingJob) (j' : ProcessingJob) :
    List ProcessingJob :=
  jobs.map fun j => if j.id == j'.id then j' else j

/-- Full system state: durable store, the channel of enqueued payloads not yet
received, and the in-memory copies held by workers. -/
structure SysState where
  files : List Nat
  jobs : List ProcessingJob
  channel : List ProcessingJob
  workers : List ProcessingJob
deriving DecidableEq, Repr

/-- Interleaved steps of the running system. -/
inductive SysStep : SysState → SysState → Prop
  | queue (s : SysState) (file_id : Nat) (jt : JobType) (new_id t : Nat)
      (s' : Store) (job : ProcessingJob) :
      queue_processing_job ⟨s.files, s.jobs⟩ file_id jt new_id t
        = .ok (s', job) →
      SysStep s ⟨s.files, s'.jobs, s.channel ++ [job], s.workers⟩
  | pickup (s : SysState) (job : ProcessingJob) (rest : List ProcessingJob) :
      s.channel = job :: rest →
      SysStep s ⟨s.files, s.jobs, rest, s.workers ++ [job]⟩
  | workerStart (s : SysState) (k : Nat) (hk : k < s.workers.length)
      (t : Nat) (c' : ProcessingJob) :
      start_processing t (s.workers.get ⟨k, hk⟩) = .ok c' →
      SysStep s ⟨s.files, persistById s.jobs c', s.channel,
        s.workers.set k c'⟩
  | workerProgress (s : SysState) (k : Nat) (hk : k < s.workers.length)
      (p : ℚ) (m : Option String) (c' : ProcessingJob) :
      update_progress p m (s.workers.get ⟨k, hk⟩) = .ok c' →
      SysStep s ⟨s.files, persistById s.jobs c', s.channel,
        s.workers.set k c'⟩
  | workerComplete (s : SysState) (k : Nat) (hk : k < s.workers.length)
      (res : JobResult) (t : Nat) (c' : ProcessingJob) :
      complete_processing res t (s.workers.get ⟨k, hk⟩) = .ok c' →
      SysStep s ⟨s.files, persistById s.jobs c', s.channel,
        s.workers.eraseIdx k⟩
  | workerFail (s : SysState) (k : Nat) (hk : k < s.workers.length)
      (e : String) (t : Nat) (c' : ProcessingJob) :
      fail_processing e t (s.workers.get ⟨k, hk⟩) = .ok c' →
      SysStep s ⟨s.files, persistById s.jobs c', s.channel,
        s.workers.eraseIdx k⟩
  | cancel (s : SysState) (i : Nat) (hi : i < s.jobs.length) (t : Nat)
      (j' : ProcessingJob) :
      is_active (s.jobs.get ⟨i, hi⟩) = true →
      cancelOp t (s.jobs.get ⟨i, hi⟩) = .ok j' →
      SysStep s ⟨s.files, s.jobs.set i j', s.channel, s.workers⟩

/-- System states reachable from an empty store, queue and worker pool. -/
inductive SysReachable (files : List Nat) : SysState → Prop
  | init : SysReachable files ⟨files, [], [], []⟩
  | step (s s' : SysState) : SysReachable files s → SysStep s s' →
      SysReachable files s'

/-! ## In-process job queue: `mpsc_job_queue.rs`

The unbounded mpsc channel is a FIFO list; the `pending_jobs` HashMap is an
association list from job id to job.  `enqueue` inserts into the map and
pushes to the channel; `dequeue` pops the channel and then erases the popped
id from the map; `remove_job` erases from the map only. -/

/-- Statistics kept by `MpscJobQueue` (`QueueStats`, `last_activity`
abstracted to the instant of the last recorded operation). -/
structure QueueStats where
  total_enqueued : Nat
  total_dequeued : Nat
deriving DecidableEq, Repr

/-- The state of one `MpscJobQueue`. -/
structure MpscJobQueue where
  channel : List ProcessingJob
  pending_jobs : List (Nat × ProcessingJob)
  stats : QueueStats
deriving DecidableEq, Repr

/-- Model of `HashMap::insert`: replace the binding if the key is present, else add. -/
def mapInsert (k : Nat) (v : ProcessingJob) :
    List (Nat × ProcessingJob) → List (Nat × ProcessingJob)
  | [] => [(k, v)]
  | (k', v') :: rest =>
    if k' == k then (k, v) :: rest else (k', v') :: mapInsert k v rest

/-- Model of `HashMap::remove(&k).is_some()` together with the map after removal. -/
def mapRemove (k : Nat) :
    List (Nat × ProcessingJob) → Bool × List (Nat × ProcessingJob)
  | [] => (false, [])
  | (k', v') :: rest =>
    if k' == k then (true, rest)
    else
      let r := mapRemove k rest
      (r.1, (k', v') :: r.2)

/-- Model of `MpscJobQueue::enqueue`. -/
def enqueue (q : MpscJobQueue) (job : ProcessingJob) : MpscJobQueue :=
  { channel := q.channel ++ [job],
    pending_jobs := mapInsert job.id job q.pending_jobs,
    stats := { q.stats with total_enqueued := q.stats.total_enqueued + 1 } }

/-- Model of `MpscJobQueue::dequeue`: `none` models the await on an empty channel (the
error branch is only reached on channel closure, which this model excludes). -/
def dequeue (q : MpscJobQueue) : Option (ProcessingJob × MpscJobQueue) :=
  match q.channel with
  | [] => none
  | job :: rest =>
    some (job,
      { channel := rest,
        pending_jobs := (mapRemove job.id q.pending_jobs).2,
        stats := { q.stats with
                     total_dequeued := q.stats.total_dequeued + 1 } })

/-- Model of `MpscJobQueue::size`: the length of the pending map, not of the channel. -/
def queueSize (q : MpscJobQueue) : Nat :=
  q.pending_jobs.length

/-- Model of `MpscJobQueue::remove_job`: erase from the pending map only; the channel
is untouched. -/
def remove_job (q : MpscJobQueue) (job_id : Nat) : Bool × MpscJobQueue :=
  let r := mapRemove job_id q.pending_jobs
  (r.1, { q with pending_jobs := r.2 })

/-! ## Embedding client retry loop: `inference_client.rs`

`InferenceClient::send_embed_request` is modelled as a function of an oracle
giving the outcome of `execute_embed_request` on each attempt (attempts are
numbered from 1, as the `attempts` counter is).  The model returns the number
of attempts made, the sequence of back-off sleeps (in milliseconds, as exact
rationals: the source computes `backoff_factor.powi(attempts - 1) * 1000.0`),
and the final result. -/

/-- Model of `EmbeddingsError` (`src/infrastructure/external_services/inference_client.rs`). -/
inductive EmbeddingsError where
  | requestError (msg : String)
  | parseError (msg : String)
  | apiError (msg : String)
deriving DecidableEq, Repr

/-- The `loop` of `send_embed_request`.  `attempts` is the value of the
counter after the increment at the top of the current iteration; `remaining`
is `max_retries + 1 - attempts`, i.e. how many more failures may be retried
(when it is zero, `attempts > max_retries` and the error is returned). -/
def sendEmbedAux (oracle : Nat → Except EmbeddingsError (List (List ℚ)))
    (backoff_factor : ℚ) :
    Nat → Nat → Nat × List ℚ × Except EmbeddingsError (List (List ℚ))
  | attempts, 0 =>
    match oracle attempts with
    | .ok r => (attempts, [], .ok r)
    | .error e => (attempts, [], .error e)
  | attempts, rem + 1 =>
    match oracle attempts with
    | .ok r => (attempts, [], .ok r)
    | .error _e =>
      let rest := sendEmbedAux oracle backoff_factor (attempts + 1) rem
      (rest.1, backoff_factor ^ (attempts - 1) * 1000 :: rest.2.1,
        rest.2.2)

/-- Model of `InferenceClient::send_embed_request`. -/
def send_embed_request (max_retries : Nat) (backoff_factor : ℚ)
    (oracle : Nat → Except EmbeddingsError (List (List ℚ))) :
    Nat × List ℚ × Except EmbeddingsError (List (List ℚ)) :=
  sendEmbedAux oracle backoff_factor 1 max_retries

/-! ## Cosine similarity and similarity search:
`postgres_embedding_repository.rs`

`f32` vectors are idealised as real vectors; the square root forces the
definitions into `ℝ`, so they are noncomputable and witnesses evaluate them
with `simp`/`norm_num`. -/

open Classical in
/-- Model of `a.iter().zip(b.iter()).map(|(x, y)| x * y).sum()`. -/
noncomputable def dotProduct (a b : List ℝ) : ℝ :=
  ((a.zip b).map fun p => p.1 * p.2).sum

open Classical in
/-- Model of `a.iter().map(|x| x * x).sum::<f32>().sqrt()`. -/
noncomputable def euclideanNorm (a : List ℝ) : ℝ :=
  Real.sqrt ((a.map fun x => x * x).sum)

open Classical in
/-- Model of `calculate_cosine_similarity` (free function at the bottom of the
repository file). -/
noncomputable def calculate_cosine_similarity (a b : List ℝ) : ℝ :=
  if a.length ≠ b.length then 0
  else
    let dot := dotProduct a b
    let norm_a := euclideanNorm a
    let norm_b := euclideanNorm b
    if norm_a = 0 ∨ norm_b = 0 then 0
    else dot / (norm_a * norm_b)

/-- One stored `embeddings` row as `similarity_search` sees it: the nullable
vector column and the nullable chunk-id column. -/
structure EmbeddingRow where
  embedding : Option (List ℝ)
  content_chunk_id : Option Nat

open Classical in
/-- Stable descending insertion by score — the effect of
`results.sort_by(|a, b| b.similarity_score.partial_cmp(&a.similarity_score))`. -/
noncomputable def insertScoreDesc (x : ℝ × Nat) :
    List (ℝ × Nat) → List (ℝ × Nat)
  | [] => [x]
  | y :: ys => if x.1 < y.1 then y :: insertScoreDesc x ys else x :: y :: ys

open Classical in
/-- Stable sort of `(score, chunk_id)` pairs by score descending. -/
noncomputable def sortScoreDesc : List (ℝ × Nat) → List (ℝ × Nat)
  | [] => []
  | x :: xs => insertScoreDesc x (sortScoreDesc xs)

open Classical in
/-- The body of the `for model in models` loop of `similarity_search`: rows
with a vector and a chunk id are scored; a row strictly below the threshold
(when one is supplied) is skipped. -/
noncomputable def scoreRow (query_vector : List ℝ) (threshold : Option ℝ)
    (r : EmbeddingRow) : Option (ℝ × Nat) :=
  match r.embedding, r.content_chunk_id with
  | some emb, some chunk_id =>
    match threshold with
    | some th =>
      if calculate_cosine_similarity query_vector emb < th then none
      else some (calculate_cosine_similarity query_vector emb, chunk_id)
    | none => some (calculate_cosine_similarity query_vector emb, chunk_id)
  | _, _ => none

open Classical in
/-- Model of `PostgresEmbeddingRepository::similarity_search`: load at most `lim` rows
with a non-null vector, score each row that also has a chunk id, drop rows
strictly below the threshold when one is given, sort by score descending.
Results are `(similarity_score, chunk_id)` pairs. -/
noncomputable def similarity_search (query_vector : List ℝ)
    (rows : List EmbeddingRow) (lim : Nat) (threshold : Option ℝ) :
    List (ℝ × Nat) :=
  let loaded := (rows.filter fun r => r.embedding.isSome).take lim
  sortScoreDesc (loaded.filterMap (scoreRow query_vector threshold))

/-- The input of the repository's own `test_no_overlap` unit test, which
asserts `chunks.join("") == text`. -/
def noOverlapTestText : List Char :=
  ("This is a very long sentence that should be split into multiple " ++
   "chunks with no overlap between them.").toList

/-- A small text that stays a single chunk. -/
def c4SmallText : List Char := "hello world this is fine".toList

/-- The single chunk produced for `c4SmallText`. -/
def c4SmallChunk : ContentChunk :=
  { file_id := 0, chunk_text := c4SmallText, index := 0,
    word_count := some (splitWhitespaceCount c4SmallText) }

/-- The freshly constructed job of the C2 run. -/
def c2Job0 : ProcessingJob := new_file_processing 0 0 0

/-- Model of `c2Job0` after `start_processing` at instant 1. -/
def c2Job1 : ProcessingJob :=
  { c2Job0 with status := .processing, started_at := some 1,
                progress := 1 / 10 }

/-- Model of `c2Job1` after `update_progress(1.0, None)`. -/
def c2Job2 : ProcessingJob := { c2Job1 with progress := 1 }

/-- A pending job for the C8 witness. -/
def c8Pending : ProcessingJob := new_file_processing 3 4 0

/-- Model of `c8Pending` after a successful cancel at instant 5. -/
def c8Cancelled : ProcessingJob :=
  { c8Pending with status := .failed "Cancelled by user",
                   completed_at := some 5,
                   error_message := some "Job was cancelled" }

/-- The empty queue for the C10 witness. -/
def emptyQueue : MpscJobQueue :=
  { channel := [], pending_jobs := [],
    stats := { total_enqueued := 0, total_dequeued := 0 } }

/-- A job counted by the per-file uniqueness invariant: it references file
`f` and is active. -/
def activeFor (f : Nat) (j : ProcessingJob) : Bool :=
  j.file_id == f && is_active j

/-- The job queued in the C5 and C3 runs (id 1, file 7, created at 0). -/
def c5Job1 : ProcessingJob := new_file_processing 1 7 0

/-- Model of `c5Job1` as cancelled by the use case at instant 1. -/
def c5Job1c : ProcessingJob :=
  { c5Job1 with status := .failed "Cancelled by user",
                completed_at := some 1,
                error_message := some "Job was cancelled" }

/-- A second job for the same file (id 2, created at 1). -/
def c5Job2 : ProcessingJob := new_file_processing 2 7 1

/-- The worker's copy of `c5Job1` after `start_processing` at instant 2. -/
def c5Job1s : ProcessingJob :=
  { c5Job1 with status := .processing, started_at := some 2,
                progress := 1 / 10 }

/-- Durable job 1 as cancelled at instant 3, while its worker is mid-run. -/
def c3Job1sc : ProcessingJob :=
  { c5Job1s with status := .failed "Cancelled by user",
                 completed_at := some 3,
                 error_message := some "Job was cancelled" }

/-- The result the worker reports for the C3 run. -/
def c3Result : JobResult :=
  { chunks_created := 1, embeddings_created := 1,
    processing_time_ms := 0, extracted_text_length := 0 }

/-- The worker's copy after `complete_processing` at instant 4. -/
def c3Job1done : ProcessingJob :=
  { c5Job1s with status := .completed, progress := 1,
                 completed_at := some 4, result_summary := some c3Result,
                 error_message := none }

/-- Three characters — but seven UTF-8 bytes: two CJK characters around a
space. -/
def c7CjkText : List Char := "中 中".toList

/-! ## Theorems -/

/-- Claim C1 (code bug).  The splitter drops the separator at every flush
boundary of `recursive_split`, so concatenating the chunks does not reproduce
the input.  The failing input shown here is the text of the repository's own
`test_no_overlap` unit test (with `max = 40`), whose final assertion
`chunks.join("") == text` this computation refutes. -/
theorem C1_split_concat_code_bug :
    (split_text noOverlapTestText 40).flatten ≠ noOverlapTestText := by
  decide

/-- Claim C7, counterexample.  The claim's first case reads
`length(text) ≤ max` as a character count (the spec fixes the chunk size "in
characters" and says the splitter "operates on characters, not bytes"), but
the guard in `split_text` compares `text.len()` — a byte count.  The text
`"中 中"` has 3 characters but 7 bytes, so with `max = 3` the code does not
return it unchanged: it splits at the space into two chunks. -/
theorem C7_short_text_counterexample :
    c7CjkText.length ≤ 3 ∧ split_text c7CjkText 3 ≠ [c7CjkText] := by
  constructor
  · decide
  · decide

/-- Claim C7, amended.  The fit guard compares the byte length, not the
character count: a text whose *byte* length is at most `max` is returned
unchanged as a single chunk (a text with at most `max` characters but more
than `max` bytes may still be split — see the counterexample); the paragraph
example splits at the double-newline level with the separators consumed; the
indivisible example falls back to fixed-width slicing at the atomic level. -/
theorem C7_splitter_literal_cases :
    (∀ (text : List Char) (m : Nat), byteLen text ≤ m →
        split_text text m = [text])
  ∧ split_text "aaa\n\nbbb\n\nccc".toList 5
      = ["aaa".toList, "bbb".toList, "ccc".toList]
  ∧ split_text "abcdefghij".toList 3
      = ["abc".toList, "def".toList, "ghi".toList, "j".toList] := by
  refine ⟨fun text m h => ?_, by decide, by decide⟩
  simp [split_text, h]

/-- Witness for C7: the short-text case evaluated at a concrete input. -/
theorem C7_splitter_literal_cases_witness :
    byteLen "hi".toList ≤ 5 ∧ split_text "hi".toList 5 = ["hi".toList] :=
  ⟨by decide, C7_splitter_literal_cases.1 "hi".toList 5 (by decide)⟩

set_option maxRecDepth 100000 in
/-- Claim C4, counterexample.  On `c4GapText` the split yields two pieces;
the first ("hi") is dropped for being under 10 trimmed bytes but its
enumeration slot is consumed, so the single persisted chunk carries index 1 —
the indices are not the gapless sequence `0..n` the claim states. -/
theorem C4_chunk_index_counterexample :
    (create_chunks_from_text 0 c4GapText).map ContentChunk.index = [1] ∧
    (create_chunks_from_text 0 c4GapText).map ContentChunk.index ≠
      List.range (create_chunks_from_text 0 c4GapText).length := by
  constructor
  · decide
  · decide

/-- Indices extracted by a `filterMap` that preserves the enumeration index
form a sublist of the enumeration's index column. -/
theorem index_filterMap_sublist (g : Nat × List Char → Option ContentChunk)
    (hg : ∀ p c, g p = some c → c.index = p.1)
    (l : List (Nat × List Char)) :
    ((l.filterMap g).map ContentChunk.index).Sublist (l.map Prod.fst) := by
  induction l with
  | nil => simp
  | cons p l ih =>
    cases hgp : g p with
    | none =>
      rw [List.map_cons, List.filterMap_cons_none hgp]
      exact ih.cons p.1
    | some c =>
      rw [List.map_cons, List.filterMap_cons_some hgp, List.map_cons,
        hg p c hgp]
      exact ih.cons₂ p.1

/-- Claim C4, amended.  Chunks whose trimmed text is shorter than 10 bytes
are dropped, but a dropped chunk still consumes its enumeration slot: the
persisted indices are strictly increasing positions of the split output
(bounded by the number of split pieces), not necessarily the gapless sequence
`0..n`; every kept chunk has trimmed byte length at least 10. -/
theorem C4_amended_chunk_indices (fid : Nat) (text : List Char) :
    List.Pairwise (· < ·)
      ((create_chunks_from_text fid text).map ContentChunk.index)
  ∧ ∀ c ∈ create_chunks_from_text fid text,
      10 ≤ byteLen (rust_trim c.chunk_text) ∧
      c.index < (split_text text 2000).length := by
  unfold create_chunks_from_text
  by_cases h : rust_trim text = []
  · simp [h]
  · rw [if_neg h]
    have hg : ∀ (p : Nat × List Char) (c : ContentChunk),
        (if byteLen (rust_trim p.2) < 10 then none
         else some { file_id := fid, chunk_text := p.2, index := p.1,
                     word_count := some (splitWhitespaceCount p.2) })
          = some c → c.index = p.1 := by
      intro p c hpc
      split at hpc
      · cases hpc
      · cases hpc
        rfl
    constructor
    · have hsub := index_filterMap_sublist _ hg (split_text text 2000).enum
      have hpw : List.Pairwise (· < ·)
          ((split_text text 2000).enum.map Prod.fst) := by
        rw [List.enum_map_fst]
        exact List.pairwise_lt_range _
      exact hpw.sublist hsub
    · intro c hc
      rcases List.mem_filterMap.mp hc with ⟨p, hp, hpc⟩
      obtain ⟨i, txt⟩ := p
      have hi := (List.mem_enum hp).1
      split at hpc
      · cases hpc
      · cases hpc
        rename_i hlen
        exact ⟨Nat.le_of_not_lt hlen, hi⟩

/-- Witness for the amended C4, evaluated on `c4SmallText`. -/
theorem C4_amended_chunk_indices_witness :
    c4SmallChunk ∈ create_chunks_from_text 0 c4SmallText ∧
    (10 ≤ byteLen (rust_trim c4SmallChunk.chunk_text) ∧
     c4SmallChunk.index < (split_text c4SmallText 2000).length) :=
  ⟨by decide,
   (C4_amended_chunk_indices 0 c4SmallText).2 c4SmallChunk (by decide)⟩

/-- Claim C2, counterexample.  `update_progress` accepts `1.0` while the job
is still `Processing` (its guard rejects only values outside `[0,1]`), so the
state reached by `new → start_processing → update_progress(1.0, None)` has
`progress = 1.0` without `status = Completed`, refuting the claimed
equivalence. -/
theorem C2_completed_iff_counterexample :
    JobReachable c2Job2 ∧ c2Job2.status ≠ .completed ∧ c2Job2.progress = 1 := by
  refine ⟨?_, by decide, by decide⟩
  exact JobReachable.update 1 none c2Job1 c2Job2
    (JobReachable.start 1 c2Job0 c2Job1 (JobReachable.newFile 0 0 0) rfl)
    rfl

/-- Claim C2, amended.  For every reachable job state, `progress` lies in
`[0,1]` and `status = Completed` implies `progress = 1.0`; the converse
implication fails (see the counterexample), because `update_progress` accepts
the value `1.0` while the status is still `Processing`. -/
theorem C2_amended_progress_invariant (j : ProcessingJob)
    (h : JobReachable j) :
    0 ≤ j.progress ∧ j.progress ≤ 1 ∧
      (j.status = .completed → j.progress = 1) := by
  induction h with
  | newFile id fid t =>
    exact ⟨le_refl 0, show (0 : ℚ) ≤ 1 by norm_num,
      fun hc => PStatus.noConfusion hc⟩
  | newUrl id fid url t =>
    exact ⟨le_refl 0, show (0 : ℚ) ≤ 1 by norm_num,
      fun hc => PStatus.noConfusion hc⟩
  | newYoutube id fid url t =>
    exact ⟨le_refl 0, show (0 : ℚ) ≤ 1 by norm_num,
      fun hc => PStatus.noConfusion hc⟩
  | start t j j' hr heq ih =>
    unfold start_processing at heq
    split at heq
    · cases heq
    · cases heq
      exact ⟨show (0 : ℚ) ≤ 1 / 10 by norm_num,
        show (1 : ℚ) / 10 ≤ 1 by norm_num,
        fun hc => PStatus.noConfusion hc⟩
  | update p m j j' hr heq ih =>
    unfold update_progress at heq
    split at heq
    · cases heq
    · split at heq
      · cases heq
      · cases heq
        rename_i hproc hrange
        push_neg at hrange
        refine ⟨hrange.1, hrange.2, fun hc => ?_⟩
        rw [not_not] at hproc
        rw [show j.status = .completed from hc] at hproc
        cases hproc
  | complete res t j j' hr heq ih =>
    unfold complete_processing at heq
    split at heq
    · cases heq
    · cases heq
      exact ⟨show (0 : ℚ) ≤ 1 by norm_num, le_refl 1, fun _ => rfl⟩
  | fail e t j j' hr heq ih =>
    unfold fail_processing at heq
    split at heq
    · cases heq
    · cases heq
      exact ⟨ih.1, ih.2.1, fun hc => by cases hc⟩
  | cancel t j j' hr heq ih =>
    unfold cancelOp at heq
    split at heq
    · cases heq
    · cases heq
      exact ⟨ih.1, ih.2.1, fun hc => by cases hc⟩

/-- Witness for the amended C2, at a freshly constructed job. -/
theorem C2_amended_progress_invariant_witness :
    JobReachable (new_file_processing 0 0 0) ∧
    (0 ≤ (new_file_processing 0 0 0).progress ∧
     (new_file_processing 0 0 0).progress ≤ 1 ∧
     ((new_file_processing 0 0 0).status = .completed →
        (new_file_processing 0 0 0).progress = 1)) :=
  ⟨JobReachable.newFile 0 0 0,
   C2_amended_progress_invariant _ (JobReachable.newFile 0 0 0)⟩

/-- Claim C8 (confirmed).  A successful cancel leaves the job in the terminal
state `Failed("Cancelled by user")`; a second cancel of the same record takes
the `is_active` guard's failure path, returns `JobNotCancellable`, and leaves
the stored record exactly as it was (the use case only calls `update` on the
success path). -/
theorem C8_cancel_then_cancel (job_id : Nat) (j j' : ProcessingJob)
    (t1 t2 : Nat) (r : String)
    (h : cancel_execute job_id (some j) t1 = (some j', .ok r)) :
    j'.status = .failed "Cancelled by user" ∧
    ∃ msg, cancel_execute job_id (some j') t2
        = (some j', .error (.jobNotCancellable msg)) := by
  simp only [cancel_execute] at h
  split at h
  · simp at h
  · rename_i hact
    split at h
    · simp at h
    · rename_i jc hco
      rw [Prod.mk.injEq] at h
      obtain ⟨h1, h2⟩ := h
      cases h1
      unfold cancelOp at hco
      split at hco
      · cases hco
      · cases hco
        refine ⟨rfl, ?_⟩
        simp only [cancel_execute]
        rw [if_pos]
        · exact ⟨_, rfl⟩
        · intro hactive
          simp [is_active] at hactive

/-- Witness for C8 at a concrete pending job. -/
theorem C8_cancel_then_cancel_witness :
    cancel_execute 3 (some c8Pending) 5 = (some c8Cancelled, .ok "cancelled") ∧
    (c8Cancelled.status = .failed "Cancelled by user" ∧
     ∃ msg, cancel_execute 3 (some c8Cancelled) 6
        = (some c8Cancelled, .error (.jobNotCancellable msg))) :=
  ⟨rfl, C8_cancel_then_cancel 3 c8Pending c8Cancelled 5 6 "cancelled" rfl⟩

/-- Removing the key just inserted by `mapInsert` reports `true`. -/
theorem mapRemove_mapInsert_found (k : Nat) (v : ProcessingJob)
    (m : List (Nat × ProcessingJob)) :
    (mapRemove k (mapInsert k v m)).1 = true := by
  induction m with
  | nil => simp [mapInsert, mapRemove]
  | cons kv m ih =>
    obtain ⟨k', v'⟩ := kv
    by_cases h : k' = k
    · simp [mapInsert, mapRemove, h]
    · simp only [mapInsert, mapRemove, beq_iff_eq, if_neg h]
      exact ih

/-- Every `mapInsert` result is non-empty. -/
theorem mapInsert_length_pos (k : Nat) (v : ProcessingJob)
    (m : List (Nat × ProcessingJob)) : 1 ≤ (mapInsert k v m).length := by
  cases m with
  | nil => simp [mapInsert]
  | cons kv m =>
    obtain ⟨k', v'⟩ := kv
    by_cases h : k' = k <;> simp [mapInsert, h]

/-- Removing the key just inserted shrinks the map by exactly one entry. -/
theorem mapRemove_mapInsert_length (k : Nat) (v : ProcessingJob)
    (m : List (Nat × ProcessingJob)) :
    (mapRemove k (mapInsert k v m)).2.length = (mapInsert k v m).length - 1 := by
  induction m with
  | nil => simp [mapInsert, mapRemove]
  | cons kv m ih =>
    obtain ⟨k', v'⟩ := kv
    by_cases h : k' = k
    · simp [mapInsert, mapRemove, h]
    · simp only [mapInsert, mapRemove, beq_iff_eq, if_neg h,
        List.length_cons]
      rw [ih]
      have := mapInsert_length_pos k v m
      omega

/-- Claim C10 (confirmed).  For a job just enqueued and not yet dequeued,
`remove_job` returns `true` and decrements `size` (both read the pending
map), but the delivery channel that `dequeue` reads is untouched, so a
subsequent `dequeue` still hands the job to a worker. -/
theorem C10_remove_job_channel_untouched (q : MpscJobQueue)
    (j : ProcessingJob) :
    (remove_job (enqueue q j) j.id).1 = true ∧
    queueSize (remove_job (enqueue q j) j.id).2
      = queueSize (enqueue q j) - 1 ∧
    (remove_job (enqueue q j) j.id).2.channel = q.channel ++ [j] ∧
    (q.channel = [] →
      ∃ q', dequeue (remove_job (enqueue q j) j.id).2 = some (j, q')) := by
  refine ⟨mapRemove_mapInsert_found j.id j q.pending_jobs,
    mapRemove_mapInsert_length j.id j q.pending_jobs, rfl, ?_⟩
  intro h
  have hch : (remove_job (enqueue q j) j.id).2.channel = [j] := by
    simp only [remove_job, enqueue, h, List.nil_append]
  unfold dequeue
  rw [hch]
  exact ⟨_, rfl⟩

/-- Witness for C10: the queue starts empty, so the post-removal dequeue
returns the job that `remove_job` claimed to delete. -/
theorem C10_remove_job_channel_untouched_witness :
    emptyQueue.channel = [] ∧
    ∃ q', dequeue (remove_job (enqueue emptyQueue (new_file_processing 0 0 0))
        (new_file_processing 0 0 0).id).2
      = some (new_file_processing 0 0 0, q') :=
  ⟨rfl,
   (C10_remove_job_channel_untouched emptyQueue
     (new_file_processing 0 0 0)).2.2.2 rfl⟩

/-- Claim C9, counterexample.  With `max_retries = 1` and every attempt
failing with a parse error (a malformed response), the loop makes 2 attempts
— `max_retries + 1`, not at most `max_retries` — and sleeps once between
them, i.e. the malformed response was retried rather than returned to the
caller immediately. -/
theorem C9_retry_counterexample :
    (send_embed_request 1 (3 / 2)
        (fun _ => .error (.parseError "malformed"))).1 = 2 ∧
    (send_embed_request 1 (3 / 2)
        (fun _ => .error (.parseError "malformed"))).2.1 = [1000] := by
  constructor
  · rfl
  · show [(3 / 2 : ℚ) ^ (0 : Nat) * 1000] = [1000]
    norm_num

/-- Full behaviour of the retry loop from an arbitrary attempt number:
bounds on the attempts made, the exact back-off sleep sequence, failure of
every earlier attempt, and the result being the outcome of the last attempt. -/
theorem sendEmbedAux_spec
    (oracle : Nat → Except EmbeddingsError (List (List ℚ))) (f : ℚ)
    (remaining : Nat) :
    ∀ attempts, 1 ≤ attempts →
      attempts ≤ (sendEmbedAux oracle f attempts remaining).1 ∧
      (sendEmbedAux oracle f attempts remaining).1 ≤ attempts + remaining ∧
      (sendEmbedAux oracle f attempts remaining).2.1
        = (List.range ((sendEmbedAux oracle f attempts remaining).1
              - attempts)).map (fun i => f ^ (attempts - 1 + i) * 1000) ∧
      (∀ k, attempts ≤ k → k < (sendEmbedAux oracle f attempts remaining).1 →
        ∃ e, oracle k = .error e) ∧
      (sendEmbedAux oracle f attempts remaining).2.2
        = oracle (sendEmbedAux oracle f attempts remaining).1 := by
  induction remaining with
  | zero =>
    intro attempts ha
    cases ho : oracle attempts with
    | ok r =>
      simp only [sendEmbedAux, ho]
      exact ⟨le_refl _, by omega, by simp,
        fun k hk1 hk2 => absurd hk2 (by omega), trivial⟩
    | error e =>
      simp only [sendEmbedAux, ho]
      exact ⟨le_refl _, by omega, by simp,
        fun k hk1 hk2 => absurd hk2 (by omega), trivial⟩
  | succ rem ih =>
    intro attempts ha
    cases ho : oracle attempts with
    | ok r =>
      simp only [sendEmbedAux, ho]
      exact ⟨le_refl _, by omega, by simp,
        fun k hk1 hk2 => absurd hk2 (by omega), trivial⟩
    | error e =>
      obtain ⟨ih1, ih2, ih3, ih4, ih5⟩ := ih (attempts + 1) (by omega)
      simp only [sendEmbedAux, ho]
      refine ⟨by omega, by omega, ?_, ?_, ih5⟩
      · have hn : (sendEmbedAux oracle f (attempts + 1) rem).1 - attempts
            = ((sendEmbedAux oracle f (attempts + 1) rem).1
                - (attempts + 1)) + 1 := by omega
        rw [hn, List.range_succ_eq_map, List.map_cons, List.map_map]
        congr 1
        rw [ih3]
        refine List.map_congr_left fun i _ => ?_
        simp only [Function.comp_apply]
        have h2 : attempts + 1 - 1 + i = attempts - 1 + (i + 1) := by
          omega
        rw [h2]
      · intro k hk1 hk2
        rcases Nat.eq_or_lt_of_le hk1 with hk | hk
        · exact ⟨e, hk ▸ ho⟩
        · exact ih4 k hk hk2

/-- Claim C9, amended.  The client makes between 1 and `max_retries + 1`
attempts (stopping at the first success), sleeping
`backoff_factor ^ (attempt - 1) · 1000` milliseconds between consecutive
attempts; it retries uniformly on every error — transport, malformed
response and API errors alike — and returns the outcome of the final
attempt. -/
theorem C9_amended_retry (max_retries : Nat) (backoff_factor : ℚ)
    (oracle : Nat → Except EmbeddingsError (List (List ℚ))) :
    1 ≤ (send_embed_request max_retries backoff_factor oracle).1 ∧
    (send_embed_request max_retries backoff_factor oracle).1
      ≤ max_retries + 1 ∧
    (send_embed_request max_retries backoff_factor oracle).2.1
      = (List.range ((send_embed_request max_retries backoff_factor
            oracle).1 - 1)).map (fun i => backoff_factor ^ i * 1000) ∧
    (∀ k, 1 ≤ k →
        k < (send_embed_request max_retries backoff_factor oracle).1 →
        ∃ e, oracle k = .error e) ∧
    (send_embed_request max_retries backoff_factor oracle).2.2
      = oracle (send_embed_request max_retries backoff_factor oracle).1 := by
  unfold send_embed_request
  obtain ⟨h1, h2, h3, h4, h5⟩ :=
    sendEmbedAux_spec oracle backoff_factor max_retries 1 (le_refl 1)
  refine ⟨h1, by omega, ?_, h4, h5⟩
  simpa using h3

/-- Witness for the amended C9 at a concrete always-succeeding oracle. -/
theorem C9_amended_retry_witness :
    1 ≤ (send_embed_request 2 (3 / 2) (fun _ => .ok [[1]])).1 ∧
    (send_embed_request 2 (3 / 2) (fun _ => .ok [[1]])).1 ≤ 2 + 1 ∧
    (send_embed_request 2 (3 / 2) (fun _ => .ok [[1]])).2.1
      = (List.range ((send_embed_request 2 (3 / 2)
            (fun _ => .ok [[1]])).1 - 1)).map (fun i => (3 / 2 : ℚ) ^ i * 1000) ∧
    (∀ k, 1 ≤ k → k < (send_embed_request 2 (3 / 2) (fun _ => .ok [[1]])).1 →
        ∃ e, (fun _ => (.ok [[1]] : Except EmbeddingsError (List (List ℚ)))) k
          = .error e) ∧
    (send_embed_request 2 (3 / 2) (fun _ => .ok [[1]])).2.2
      = (fun _ => (.ok [[1]] : Except EmbeddingsError (List (List ℚ))))
          (send_embed_request 2 (3 / 2) (fun _ => .ok [[1]])).1 :=
  C9_amended_retry 2 (3 / 2) (fun _ => .ok [[1]])

/-- A status satisfying `is_pending` is `Pending`. -/
theorem isPending_eq {s : PStatus} (h : s.isPending = true) : s = .pending := by
  cases s <;> simp [PStatus.isPending] at h ⊢

/-- A status satisfying `is_processing` is `Processing`. -/
theorem isProcessing_eq {s : PStatus} (h : s.isProcessing = true) :
    s = .processing := by
  cases s <;> simp [PStatus.isProcessing] at h ⊢

/-- Every entity operation preserves the job's `file_id`, and none of them
reactivates a job: if the result is active, the argument already was. -/
theorem JobOpStep_fileId_active {j j' : ProcessingJob} (h : JobOpStep j j') :
    j'.file_id = j.file_id ∧ (is_active j' = true → is_active j = true) := by
  rcases h with ⟨t, heq⟩ | ⟨p, m, heq⟩ | ⟨res, t, heq⟩ | ⟨e, t, heq⟩ |
    ⟨t, heq⟩
  · unfold start_processing at heq
    split at heq
    · cases heq
    · cases heq
      rename_i hp
      rw [not_not] at hp
      exact ⟨rfl, fun _ => by simp [is_active, isPending_eq hp]⟩
  · unfold update_progress at heq
    split at heq
    · cases heq
    · split at heq
      · cases heq
      · cases heq
        rename_i hp _
        rw [not_not] at hp
        exact ⟨rfl, fun _ => by simp [is_active, isProcessing_eq hp]⟩
  · unfold complete_processing at heq
    split at heq
    · cases heq
    · cases heq
      exact ⟨rfl, fun habs => by simp [is_active] at habs⟩
  · unfold fail_processing at heq
    split at heq
    · cases heq
    · cases heq
      exact ⟨rfl, fun habs => by simp [is_active] at habs⟩
  · unfold cancelOp at heq
    split at heq
    · cases heq
    · cases heq
      exact ⟨rfl, fun habs => by simp [is_active] at habs⟩

/-- Replacing one element by one that satisfies `p` no more often cannot
increase a `countP`. -/
theorem countP_set_le (p : ProcessingJob → Bool) (l : List ProcessingJob) :
    ∀ (i : Nat) (j' : ProcessingJob) (h : i < l.length),
      (p j' = true → p (l.get ⟨i, h⟩) = true) →
      (l.set i j').countP p ≤ l.countP p := by
  induction l with
  | nil => intro i j' h; cases h
  | cons a l ih =>
    intro i j' h hp
    cases i with
    | zero =>
      rw [show (a :: l).set 0 j' = j' :: l from rfl, List.countP_cons,
        List.countP_cons]
      have hget : (a :: l).get ⟨0, h⟩ = a := rfl
      rw [hget] at hp
      by_cases hj : p j' = true
      · rw [if_pos hj, if_pos (hp hj)]
      · rw [if_neg hj]
        split <;> omega
    | succ i =>
      rw [show (a :: l).set (i + 1) j' = a :: l.set i j' from rfl,
        List.countP_cons, List.countP_cons]
      have := ih i j' (by simpa using h) (by simpa using hp)
      omega

/-- The active-job guard of `queue_processing_job` reported no active job for
`fid`: then no job in the table is active for `fid`. -/
theorem countP_activeFor_zero {jobs : List ProcessingJob} {fid : Nat}
    (h : (jobs.filter fun j => j.file_id == fid).any is_active = false) :
    jobs.countP (activeFor fid) = 0 := by
  rw [List.countP_eq_zero]
  intro a ha hact
  rw [activeFor, Bool.and_eq_true] at hact
  exact (List.any_eq_false.mp h) a
    (List.mem_filter.mpr ⟨ha, hact.1⟩) hact.2

/-- The job built for any request kind starts pending with the requested
file id. -/
theorem mkJobForType_fields (jt : JobType) (new_id fid t : Nat) :
    (mkJobForType jt new_id fid t).file_id = fid ∧
    is_active (mkJobForType jt new_id fid t) = true := by
  cases jt <;> exact ⟨rfl, rfl⟩

/-- Per-file uniqueness holds along every atomic run. -/
theorem storeReachable_activeFor_le_one (s : Store) (h : StoreReachable s)
    (f : Nat) : s.jobs.countP (activeFor f) ≤ 1 := by
  induction h with
  | init files => rw [List.countP_nil]; omega
  | step s s' hr hstep ih =>
    cases hstep with
    | queue _ fid jt new_id t job heq =>
      unfold queue_processing_job at heq
      split at heq
      · cases heq
      · split at heq
        · cases heq
        · rename_i hmem hany
          rw [Except.ok.injEq, Prod.mk.injEq] at heq
          obtain ⟨hs', hjob⟩ := heq
          rw [← hs']
          show (s.jobs ++ [mkJobForType jt new_id fid t]).countP
            (activeFor f) ≤ 1
          rw [List.countP_append]
          by_cases hf : fid = f
          · subst hf
            have hfalse : (s.jobs.filter fun j =>
                j.file_id == fid).any is_active = false := by
              simpa using hany
            have h0 := countP_activeFor_zero hfalse
            have h1 : (([mkJobForType jt new_id fid t] :
                List ProcessingJob).countP (activeFor fid)) ≤ 1 := by
              rw [List.countP_cons, List.countP_nil]
              split <;> omega
            omega
          · have h1 : (([mkJobForType jt new_id fid t] :
                List ProcessingJob).countP (activeFor f)) = 0 := by
              have hfa : activeFor f (mkJobForType jt new_id fid t)
                  = false := by
                rw [activeFor, (mkJobForType_fields jt new_id fid t).1]
                simp [hf]
              rw [List.countP_cons, List.countP_nil, if_neg (by simp [hfa])]
            omega
    | jobOp i j' hlt hop =>
      refine le_trans (countP_set_le (activeFor f) s.jobs i j' hlt ?_) ih
      intro hactj
      obtain ⟨hfid, hact⟩ := JobOpStep_fileId_active hop
      rw [activeFor, Bool.and_eq_true] at hactj ⊢
      exact ⟨by rw [← hfid]; exact hactj.1, hact hactj.2⟩

/-- Claim C5, counterexample.  Run: queue job 1 for file 7; cancel it while
pending (`remove_job` deletes only the queue's pending-map entry, so the
payload stays in the delivery channel); queue job 2 for file 7 (allowed — the
durable job 1 is `Failed`); a worker then receives the stale job-1 payload
and its `start_processing` persistence write flips durable job 1 back to
`Processing`.  The store now holds two active jobs for file 7. -/
theorem C5_per_file_uniqueness_counterexample :
    ∃ s, SysReachable [7] s ∧ 2 ≤ s.jobs.countP (activeFor 7) := by
  refine ⟨⟨[7], [c5Job1s, c5Job2], [c5Job2], [c5Job1s]⟩, ?_, by decide⟩
  have h0 : SysReachable [7] ⟨[7], [], [], []⟩ := .init
  have h1 : SysReachable [7] ⟨[7], [c5Job1], [c5Job1], []⟩ :=
    .step _ _ h0
      (SysStep.queue _ 7 .fileProcessing 1 0 ⟨[7], [c5Job1]⟩ c5Job1 rfl)
  have h2 : SysReachable [7] ⟨[7], [c5Job1c], [c5Job1], []⟩ :=
    .step _ _ h1 (SysStep.cancel _ 0 (by decide) 1 c5Job1c rfl rfl)
  have h3 : SysReachable [7] ⟨[7], [c5Job1c, c5Job2], [c5Job1, c5Job2], []⟩ :=
    .step _ _ h2
      (SysStep.queue _ 7 .fileProcessing 2 1 ⟨[7], [c5Job1c, c5Job2]⟩
        c5Job2 rfl)
  have h4 : SysReachable [7]
      ⟨[7], [c5Job1c, c5Job2], [c5Job2], [c5Job1]⟩ :=
    .step _ _ h3 (SysStep.pickup _ c5Job1 [c5Job2] rfl)
  exact .step _ _ h4 (SysStep.workerStart _ 0 (by decide) 2 c5Job1s rfl)

/-- Claim C5, amended.  When every worker transition and cancel is applied
atomically to the durable record (no stale in-memory copy, as in the `Store`
model), every reachable store state has at most one job with status in
`{Pending, Processing}` per file, and `queue_processing_job` refuses with
`ValidationError` whenever the file already has an active job.  Under the
code's actual stale-copy persistence writes and map-only queue removal the
invariant can be violated (see the counterexample). -/
theorem C5_amended_per_file_uniqueness :
    (∀ s, StoreReachable s → ∀ f, s.jobs.countP (activeFor f) ≤ 1)
  ∧ (∀ (s : Store) (f : Nat) (jt : JobType) (new_id t : Nat),
      f ∈ s.files →
      (s.jobs.filter fun j => j.file_id == f).any is_active = true →
      queue_processing_job s f jt new_id t
        = .error (.validationError
            "File already has an active processing job")) := by
  refine ⟨storeReachable_activeFor_le_one, ?_⟩
  intro s f jt new_id t hmem hany
  unfold queue_processing_job
  rw [if_neg (fun hno => hno hmem), if_pos hany]

/-- Witness for the amended C5: the invariant at the initial store, and the
refusal at a store holding one active job for file 5. -/
theorem C5_amended_per_file_uniqueness_witness :
    (⟨[5], []⟩ : Store).jobs.countP (activeFor 5) ≤ 1 ∧
    queue_processing_job ⟨[5], [new_file_processing 9 5 0]⟩ 5
        .fileProcessing 10 1
      = .error (.validationError
          "File already has an active processing job") :=
  ⟨C5_amended_per_file_uniqueness.1 _ (.init [5]) 5,
   C5_amended_per_file_uniqueness.2 ⟨[5], [new_file_processing 9 5 0]⟩ 5
     .fileProcessing 10 1 (by decide) rfl⟩

/-- Claim C3, counterexample.  Run: queue job 1, worker picks it up and
starts it; the cancel use case flips the durable record to
`Failed("Cancelled by user")`; the worker (which never reloads the job by id
— `process_job` drives the channel payload directly) then completes and its
final `update` persists `Completed` over the cancelled durable record. -/
theorem C3_cancel_overwrite_counterexample :
    ∃ s s', SysReachable [7] s ∧ SysStep s s' ∧
      s.jobs.map ProcessingJob.status = [.failed "Cancelled by user"] ∧
      s'.jobs.map ProcessingJob.status = [.completed] := by
  refine ⟨⟨[7], [c3Job1sc], [], [c5Job1s]⟩, ⟨[7], [c3Job1done], [], []⟩,
    ?_, ?_, by decide, by decide⟩
  · have h0 : SysReachable [7] ⟨[7], [], [], []⟩ := .init
    have h1 : SysReachable [7] ⟨[7], [c5Job1], [c5Job1], []⟩ :=
      .step _ _ h0
        (SysStep.queue _ 7 .fileProcessing 1 0 ⟨[7], [c5Job1]⟩ c5Job1 rfl)
    have h2 : SysReachable [7] ⟨[7], [c5Job1], [], [c5Job1]⟩ :=
      .step _ _ h1 (SysStep.pickup _ c5Job1 [] rfl)
    have h3 : SysReachable [7] ⟨[7], [c5Job1s], [], [c5Job1s]⟩ :=
      .step _ _ h2 (SysStep.workerStart _ 0 (by decide) 2 c5Job1s rfl)
    exact .step _ _ h3 (SysStep.cancel _ 0 (by decide) 3 c3Job1sc rfl rfl)
  · exact SysStep.workerComplete _ 0 (by decide) c3Result 4 c3Job1done rfl

/-- Claim C3, amended.  The worker never reloads the job by id after
dequeuing; whenever a worker holds a `Processing` copy of a job whose durable
record has already been cancelled (`Failed("Cancelled by user")`), its
completion write is enabled and persists a `Completed` record with that
job's id. -/
theorem C3_amended_worker_overwrites_cancel (s : SysState) (k : Nat)
    (hk : k < s.workers.length) (res : JobResult) (t : Nat)
    (hproc : (s.workers.get ⟨k, hk⟩).status = .processing)
    (i : Nat) (hi : i < s.jobs.length)
    (hid : (s.jobs.get ⟨i, hi⟩).id = (s.workers.get ⟨k, hk⟩).id)
    (_hcanc : (s.jobs.get ⟨i, hi⟩).status = .failed "Cancelled by user") :
    ∃ s', SysStep s s' ∧ ∃ j ∈ s'.jobs, j.status = .completed ∧
      j.id = (s.jobs.get ⟨i, hi⟩).id := by
  have hco : complete_processing res t (s.workers.get ⟨k, hk⟩)
      = .ok { s.workers.get ⟨k, hk⟩ with
              status := .completed, progress := 1, completed_at := some t,
              result_summary := some res, error_message := none } := by
    unfold complete_processing
    rw [if_neg]
    rw [not_not, hproc]
    rfl
  refine ⟨_, SysStep.workerComplete s k hk res t _ hco, ?_⟩
  refine ⟨_, List.mem_map.mpr ⟨s.jobs.get ⟨i, hi⟩,
    List.get_mem s.jobs i hi, rfl⟩, ?_, ?_⟩
  · show (if (s.jobs.get ⟨i, hi⟩).id
        == ({ s.workers.get ⟨k, hk⟩ with
              status := .completed, progress := 1, completed_at := some t,
              result_summary := some res, error_message := none } :
          ProcessingJob).id
      then _ else _ : ProcessingJob).status = _
    rw [if_pos (by simpa using hid)]
  · show (if (s.jobs.get ⟨i, hi⟩).id
        == ({ s.workers.get ⟨k, hk⟩ with
              status := .completed, progress := 1, completed_at := some t,
              result_summary := some res, error_message := none } :
          ProcessingJob).id
      then _ else _ : ProcessingJob).id = _
    rw [if_pos (by simpa using hid)]
    exact hid.symm

/-- Witness for the amended C3 at the concrete cancelled-while-running
state. -/
theorem C3_amended_worker_overwrites_cancel_witness :
    ((⟨[7], [c3Job1sc], [], [c5Job1s]⟩ :
        SysState).workers.get ⟨0, by decide⟩).status = .processing ∧
    ((⟨[7], [c3Job1sc], [], [c5Job1s]⟩ :
        SysState).jobs.get ⟨0, by decide⟩).id
      = ((⟨[7], [c3Job1sc], [], [c5Job1s]⟩ :
        SysState).workers.get ⟨0, by decide⟩).id ∧
    ((⟨[7], [c3Job1sc], [], [c5Job1s]⟩ :
        SysState).jobs.get ⟨0, by decide⟩).status
      = .failed "Cancelled by user" ∧
    ∃ s', SysStep ⟨[7], [c3Job1sc], [], [c5Job1s]⟩ s' ∧
      ∃ j ∈ s'.jobs, j.status = .completed ∧
        j.id = ((⟨[7], [c3Job1sc], [], [c5Job1s]⟩ :
          SysState).jobs.get ⟨0, by decide⟩).id :=
  ⟨rfl, rfl, rfl,
   C3_amended_worker_overwrites_cancel ⟨[7], [c3Job1sc], [], [c5Job1s]⟩ 0
     (by decide) c3Result 4 rfl 0 (by decide) rfl rfl⟩

/-- Membership in a descending insertion. -/
theorem mem_insertScoreDesc {a x : ℝ × Nat} {l : List (ℝ × Nat)} :
    a ∈ insertScoreDesc x l ↔ a = x ∨ a ∈ l := by
  induction l with
  | nil => simp [insertScoreDesc]
  | cons y ys ih =>
    unfold insertScoreDesc
    split
    · rw [List.mem_cons, ih, List.mem_cons]
      tauto
    · rw [List.mem_cons, List.mem_cons]

/-- The descending sort preserves membership. -/
theorem mem_sortScoreDesc {a : ℝ × Nat} {l : List (ℝ × Nat)} :
    a ∈ sortScoreDesc l ↔ a ∈ l := by
  induction l with
  | nil => simp [sortScoreDesc]
  | cons x xs ih =>
    show a ∈ insertScoreDesc x (sortScoreDesc xs) ↔ _
    rw [mem_insertScoreDesc, ih, List.mem_cons]

/-- Inserting into a score-descending list keeps it score-descending. -/
theorem insertScoreDesc_sorted {x : ℝ × Nat} {l : List (ℝ × Nat)}
    (h : l.Sorted (fun p q => q.1 ≤ p.1)) :
    (insertScoreDesc x l).Sorted (fun p q => q.1 ≤ p.1) := by
  induction l with
  | nil => simp [insertScoreDesc]
  | cons y ys ih =>
    rw [List.sorted_cons] at h
    unfold insertScoreDesc
    split
    · rename_i hlt
      rw [List.sorted_cons]
      refine ⟨fun b hb => ?_, ih h.2⟩
      rcases mem_insertScoreDesc.mp hb with rfl | hbys
      · exact le_of_lt hlt
      · exact h.1 b hbys
    · rename_i hge
      rw [List.sorted_cons]
      refine ⟨fun b hb => ?_, List.sorted_cons.mpr h⟩
      rcases List.mem_cons.mp hb with rfl | hbys
      · exact le_of_not_lt hge
      · exact le_trans (h.1 b hbys) (le_of_not_lt hge)

/-- The output of the descending sort is score-descending. -/
theorem sortScoreDesc_sorted (l : List (ℝ × Nat)) :
    (sortScoreDesc l).Sorted (fun p q => q.1 ≤ p.1) := by
  induction l with
  | nil => simp [sortScoreDesc]
  | cons x xs ih => exact insertScoreDesc_sorted ih

/-- Model of `scoreRow` with a threshold, on a row with a vector and a chunk id. -/
theorem scoreRow_some_threshold (q : List ℝ) (t : ℝ) (row : EmbeddingRow)
    (emb : List ℝ) (cid : Nat) (he : row.embedding = some emb)
    (hc : row.content_chunk_id = some cid) :
    scoreRow q (some t) row
      = if calculate_cosine_similarity q emb < t then none
        else some (calculate_cosine_similarity q emb, cid) := by
  unfold scoreRow
  rw [he, hc]

/-- Model of `scoreRow` without a threshold, on a row with a vector and a chunk id. -/
theorem scoreRow_none_threshold (q : List ℝ) (row : EmbeddingRow)
    (emb : List ℝ) (cid : Nat) (he : row.embedding = some emb)
    (hc : row.content_chunk_id = some cid) :
    scoreRow q none row
      = some (calculate_cosine_similarity q emb, cid) := by
  unfold scoreRow
  rw [he, hc]

/-- Model of `scoreRow` on a row without a vector. -/
theorem scoreRow_no_embedding (q : List ℝ) (th : Option ℝ)
    (row : EmbeddingRow) (he : row.embedding = none) :
    scoreRow q th row = none := by
  unfold scoreRow
  rw [he]

/-- Model of `scoreRow` on a row without a chunk id. -/
theorem scoreRow_no_chunk (q : List ℝ) (th : Option ℝ) (row : EmbeddingRow)
    (emb : List ℝ) (he : row.embedding = some emb)
    (hc : row.content_chunk_id = none) :
    scoreRow q th row = none := by
  unfold scoreRow
  rw [he, hc]

/-- Claim C6 (confirmed).  Cosine similarity is the dot product over the
product of Euclidean norms, and is 0 when the dimensions differ or either
norm is 0; `similarity_search` returns its results ordered by similarity
descending; a supplied threshold is an inclusive lower bound (every result
scores at least the threshold, and every loaded row scoring at least the
threshold — equality included — is kept); with no threshold every loaded row
with a vector and a chunk id is kept. -/
theorem C6_similarity_contract :
    (∀ a b : List ℝ, a.length ≠ b.length →
        calculate_cosine_similarity a b = 0)
  ∧ (∀ a b : List ℝ, euclideanNorm a = 0 ∨ euclideanNorm b = 0 →
        calculate_cosine_similarity a b = 0)
  ∧ (∀ a b : List ℝ, a.length = b.length → euclideanNorm a ≠ 0 →
        euclideanNorm b ≠ 0 →
        calculate_cosine_similarity a b
          = dotProduct a b / (euclideanNorm a * euclideanNorm b))
  ∧ (∀ (q : List ℝ) (rows : List EmbeddingRow) (lim : Nat)
        (th : Option ℝ),
        (similarity_search q rows lim th).Sorted (fun p r => r.1 ≤ p.1))
  ∧ (∀ (q : List ℝ) (rows : List EmbeddingRow) (lim : Nat) (th : ℝ)
        (r : ℝ × Nat), r ∈ similarity_search q rows lim (some th) →
        th ≤ r.1)
  ∧ (∀ (q : List ℝ) (rows : List EmbeddingRow) (lim : Nat) (th : ℝ)
        (row : EmbeddingRow) (emb : List ℝ) (cid : Nat),
        row ∈ (rows.filter fun r => r.embedding.isSome).take lim →
        row.embedding = some emb → row.content_chunk_id = some cid →
        th ≤ calculate_cosine_similarity q emb →
        (calculate_cosine_similarity q emb, cid)
          ∈ similarity_search q rows lim (some th))
  ∧ (∀ (q : List ℝ) (rows : List EmbeddingRow) (lim : Nat)
        (row : EmbeddingRow) (emb : List ℝ) (cid : Nat),
        row ∈ (rows.filter fun r => r.embedding.isSome).take lim →
        row.embedding = some emb → row.content_chunk_id = some cid →
        (calculate_cosine_similarity q emb, cid)
          ∈ similarity_search q rows lim none) := by
  refine ⟨?_, ?_, ?_, ?_, ?_, ?_, ?_⟩
  · intro a b h
    simp only [calculate_cosine_similarity]
    rw [if_pos h]
  · intro a b h
    simp only [calculate_cosine_similarity]
    by_cases hl : a.length ≠ b.length
    · rw [if_pos hl]
    · rw [if_neg hl, if_pos h]
  · intro a b hl ha hb
    simp only [calculate_cosine_similarity]
    rw [if_neg (fun hn => hn hl), if_neg (not_or.mpr ⟨ha, hb⟩)]
  · intro q rows lim th
    exact sortScoreDesc_sorted _
  · intro q rows lim th r hr
    have hr2 : r ∈ ((rows.filter fun r => r.embedding.isSome).take
        lim).filterMap (scoreRow q (some th)) := mem_sortScoreDesc.mp hr
    rcases List.mem_filterMap.mp hr2 with ⟨row, hrow, hsc⟩
    cases he : row.embedding with
    | none => rw [scoreRow_no_embedding q (some th) row he] at hsc; cases hsc
    | some emb =>
      cases hc : row.content_chunk_id with
      | none => rw [scoreRow_no_chunk q (some th) row emb he hc] at hsc
                cases hsc
      | some cid =>
        rw [scoreRow_some_threshold q th row emb cid he hc] at hsc
        split at hsc
        · cases hsc
        · cases hsc
          rename_i hlt
          exact le_of_not_lt hlt
  · intro q rows lim th row emb cid hrow he hc hth
    apply mem_sortScoreDesc.mpr
    apply List.mem_filterMap.mpr
    refine ⟨row, hrow, ?_⟩
    rw [scoreRow_some_threshold q th row emb cid he hc]
    rw [if_neg (not_lt.mpr hth)]
  · intro q rows lim row emb cid hrow he hc
    apply mem_sortScoreDesc.mpr
    apply List.mem_filterMap.mpr
    exact ⟨row, hrow, scoreRow_none_threshold q row emb cid he hc⟩

/-- Witness for C6: mismatched dimensions score 0. -/
theorem C6_similarity_contract_witness :
    (([1] : List ℝ).length ≠ ([1, 0] : List ℝ).length) ∧
    calculate_cosine_similarity [1] [1, 0] = 0 :=
  ⟨by simp, C6_similarity_contract.1 [1] [1, 0] (by simp)⟩

end PolyglotRAG
